import Mathlib

/-!
# Verification of the yaml-reorder tool

A shallow embedding of `yaml_reorder.py`: the SQL stripper `clean_sql`,
the reconciler `reorder_yaml_columns`, and the driver `main`, together
with proofs about the specification's claims.

Conventions of the embedding:
* Python dicts are insertion-ordered association lists (`dictInsert`,
  `dictGet`, `dictHasKey`).
* A YAML column entry is its `name` string plus an opaque payload (the
  source never inspects any other key of an entry); models and documents
  likewise carry opaque `rest` components for all keys the source never
  touches.
* Strings are processed as `List Char`; each `re.sub` call of the source
  is translated as a dedicated left-to-right scanning function with the
  exact matching semantics of its (deterministic) pattern.
* The external libraries (sqlglot's parser, pyyaml's parser/serializer)
  are abstracted as oracle parameters of the driver.
-/

set_option linter.unusedVariables false

namespace YamlReorder

/-! ## Python dict model (insertion-ordered association list)

`dictInsert` mirrors Python dict assignment `d[k] = v`: if the key is
present its value is overwritten in place, otherwise the pair is
appended at the end.  `dictGet` / `dictHasKey` mirror `d[k]` / `k in d`.
-/

def dictInsert : List (String × α) → String → α → List (String × α)
  | [], k, v => [(k, v)]
  | (a, b) :: tl, k, v =>
      if a = k then (k, v) :: tl else (a, b) :: dictInsert tl k v

def dictGet (d : List (String × α)) (k : String) : Option α :=
  (d.find? (fun p => p.1 = k)).map (fun p => p.2)

def dictHasKey (d : List (String × α)) (k : String) : Bool :=
  d.any (fun p => p.1 = k)

/-! ## The document data model

`ColEntry` is one column entry of a dbt schema file: the `name` key plus
all other keys (description, tests, tags, ...) carried opaquely as
`payload`.  `YModel` is one entry of the `models` sequence: an optional
`columns` key (absent models the Python dict having no such key) plus
the model's other keys as `rest`.  `YDoc` is the whole parsed document:
an optional `models` key (absent or null) plus all other top-level keys.
-/

structure ColEntry (α : Type) where
  name : String
  payload : α
  deriving DecidableEq, Repr

structure YModel (α β : Type) where
  columns : Option (List (ColEntry α))
  rest : β
  deriving DecidableEq, Repr

structure YDoc (α β γ : Type) where
  models : Option (List (YModel α β))
  rest : γ
  deriving DecidableEq, Repr

/-- The dict comprehension of the source,
`col_dict = {col["name"]: col for col in model["columns"]}`. -/
def buildColDict (cols : List (ColEntry α)) : List (String × ColEntry α) :=
  cols.foldl (fun d c => dictInsert d c.name c) []

/-- Shallow embedding of `reorder_yaml_columns` (yaml_reorder.py:109-155).
The file write that the Python function performs on the changed branch is
modelled at the driver level (`mainRun`): here the function returns the
changed flag together with the (possibly mutated) document. -/
def reorder_yaml_columns (config : YDoc α β γ) (sql_columns : List String) :
    Except String (Bool × YDoc α β γ) :=
  match config.models with
  | none => Except.error "No models found"
  | some [] => Except.error "No models found"
  | some (model :: restModels) =>
    match model.columns with
    | none => Except.error "No columns found in model"
    | some cols =>
      let col_dict := buildColDict cols
      let current_order := cols.map (fun c => c.name)
      let new_order := sql_columns.filter (fun n => dictHasKey col_dict n)
      if current_order = new_order then
        Except.ok (false, config)
      else
        Except.ok (true,
          { config with
              models := some
                ({ model with
                    columns := some (new_order.filterMap (fun n => dictGet col_dict n)) }
                  :: restModels) })

/-- The last entry of `cols` carrying the name `n` (the value a Python
dict built by iterated assignment associates to `n`). -/
def lastWithName (cols : List (ColEntry α)) (n : String) : Option (ColEntry α) :=
  (cols.filter (fun c => c.name = n)).getLast?

/-! ## The template/comment stripper (`clean_sql`, yaml_reorder.py:28-50)

Each `re.sub` call is translated as a left-to-right scan.  All the
patterns used by the source are deterministic (no backtracking can ever
change the outcome), so each is implemented by a direct matcher.  The
scanning functions take a fuel argument (the input length, which each
step strictly decreases, suffices) to stay structurally recursive. -/

/-- Python regex `\s` on ASCII text. -/
def pySpace (c : Char) : Bool :=
  c = ' ' || c = '\t' || c = '\n' || c = '\r' || c = '\x0b' || c = '\x0c'

/-- Greedy `\s*`. -/
def dropWs : List Char → List Char
  | [] => []
  | c :: cs => if pySpace c then dropWs cs else c :: cs

/-- Consume a literal pattern, returning the rest on success. -/
def stripLit : List Char → List Char → Option (List Char)
  | [], s => some s
  | _ :: _, [] => none
  | p :: ps, c :: cs => if c = p then stripLit ps cs else none

/-- Greedy `[^)]*` followed by a mandatory `)`: consume up to and over
the first closing parenthesis. -/
def dropThroughRParen : List Char → Option (List Char)
  | [] => none
  | c :: cs => if c = ')' then some cs else dropThroughRParen cs

/-- Matcher for the tail of `\{\{\s*fn\([^)]*\)\s*\}\}` after the two
opening braces: `fnOpen` is the literal function name with its opening
parenthesis (for example `ref(`). -/
def matchCallTail (fnOpen : List Char) (s : List Char) : Option (List Char) :=
  match stripLit fnOpen (dropWs s) with
  | none => none
  | some r1 =>
    match dropThroughRParen r1 with
    | none => none
    | some r2 => stripLit ['}', '}'] (dropWs r2)

/-- One `re.sub` replacing every `\{\{\s*fn\([^)]*\)\s*\}\}` with `repl`
(yaml_reorder.py:42-43). -/
def subCallScanGo (fnOpen repl : List Char) : Nat → List Char → List Char
  | 0, _ => []
  | f + 1, '{' :: '{' :: rest =>
      match matchCallTail fnOpen rest with
      | some rest2 => repl ++ subCallScanGo fnOpen repl f rest2
      | none => '{' :: subCallScanGo fnOpen repl f ('{' :: rest)
  | f + 1, c :: cs => c :: subCallScanGo fnOpen repl f cs
  | _ + 1, [] => []

def subCallScan (fnOpen repl : List Char) (s : List Char) : List Char :=
  subCallScanGo fnOpen repl s.length s

/-- Matcher for the tail of `\{\{[^}]*\}\}` after the two opening
braces: greedy `[^}]*` runs to the first `}`, which must be followed by
a second `}` (shortening the star cannot help, so failure is final). -/
def matchMacroTail : List Char → Option (List Char)
  | [] => none
  | c :: cs =>
      if c = '}' then
        match cs with
        | '}' :: cs2 => some cs2
        | _ => none
      else matchMacroTail cs

/-- The `re.sub` replacing every remaining `\{\{[^}]*\}\}` with
`dummy_macro` (yaml_reorder.py:44). -/
def subMacroScanGo : Nat → List Char → List Char
  | 0, _ => []
  | f + 1, '{' :: '{' :: rest =>
      match matchMacroTail rest with
      | some rest2 => "dummy_macro".data ++ subMacroScanGo f rest2
      | none => '{' :: subMacroScanGo f ('{' :: rest)
  | f + 1, c :: cs => c :: subMacroScanGo f cs
  | _ + 1, [] => []

def subMacroScan (s : List Char) : List Char := subMacroScanGo s.length s

/-- Lazy `[\s\S]*?` up to a two-character closing delimiter: consume up
to and over the first occurrence of `c1 c2`. -/
def dropThroughClose (c1 c2 : Char) : List Char → Option (List Char)
  | [] => none
  | [_] => none
  | a :: b :: rest =>
      if a = c1 ∧ b = c2 then some rest
      else dropThroughClose c1 c2 (b :: rest)

/-- One `re.sub` deleting every block `o1 o2 [\s\S]*? c1 c2` — used for
`\{%...%\}`, `\{#...#\}` and `/\*...\*/` (yaml_reorder.py:45,46,48).
An opener without a closer is not a match and scanning moves on by one
character, exactly as the regex engine does. -/
def subBlockScanGo (o1 o2 c1 c2 : Char) : Nat → List Char → List Char
  | 0, _ => []
  | f + 1, a :: b :: rest =>
      if a = o1 ∧ b = o2 then
        match dropThroughClose c1 c2 rest with
        | some rest2 => subBlockScanGo o1 o2 c1 c2 f rest2
        | none => a :: subBlockScanGo o1 o2 c1 c2 f (b :: rest)
      else a :: subBlockScanGo o1 o2 c1 c2 f (b :: rest)
  | _ + 1, s => s

def subBlockScan (o1 o2 c1 c2 : Char) (s : List Char) : List Char :=
  subBlockScanGo o1 o2 c1 c2 s.length s

/-- The rest of the current line: everything from the next newline on
(the newline itself is kept, as `$` of the multiline regex matches just
before it). -/
def skipToNl : List Char → List Char
  | [] => []
  | c :: cs => if c = '\n' then c :: cs else skipToNl cs

/-- The `re.sub` for `--.*?$` under `re.MULTILINE` (yaml_reorder.py:47):
each `--` comment is truncated to the end of its line. -/
def stripLineCommentsGo : Nat → List Char → List Char
  | 0, _ => []
  | f + 1, '-' :: '-' :: cs => stripLineCommentsGo f (skipToNl cs)
  | f + 1, c :: cs => c :: stripLineCommentsGo f cs
  | _ + 1, [] => []

def stripLineComments (s : List Char) : List Char :=
  stripLineCommentsGo s.length s

/-- Case-insensitive literal prefix test (ASCII case folding, as the
patterns `WITH` and `SELECT` are ASCII). -/
def startsWithCI : List Char → List Char → Bool
  | [], _ => true
  | _ :: _, [] => false
  | p :: ps, c :: cs => c.toLower = p.toLower && startsWithCI ps cs

/-- The lookahead `(?=WITH|SELECT)` with `re.IGNORECASE`. -/
def startsWithQueryKw (s : List Char) : Bool :=
  startsWithCI "WITH".data s || startsWithCI "SELECT".data s

/-- The suffix of `s` beginning at the first case-insensitive occurrence
of `WITH` or `SELECT`, if any. -/
def trimAux : List Char → Option (List Char)
  | [] => none
  | c :: cs => if startsWithQueryKw (c :: cs) then some (c :: cs) else trimAux cs

/-- The `re.sub` for `^.*?(?=WITH|SELECT)` under `re.DOTALL` and
`re.IGNORECASE` (yaml_reorder.py:49).  The pattern is anchored, but
`re.sub` (Python 3.7 and later) retries a non-empty match at the same
position after replacing an empty match.  The net effect: the text is
cut at its first keyword occurrence at a position of at least 1, if one
exists, and is otherwise unchanged.  (When the text does not start with
a keyword this is the first occurrence overall; when it does start with
a keyword, the empty anchored match is replaced invisibly and the retry
then consumes up to the second occurrence.) -/
def trimToQueryStart (s : List Char) : List Char := (trimAux s.tail).getD s

/-- Shallow embedding of `clean_sql` (yaml_reorder.py:28-50): the same
sequence of reassignments as the source. -/
def clean_sql (sql : String) : String :=
  let s1 := subCallScan "ref(".data "dummy_table".data sql.data
  let s2 := subCallScan "source(".data "dummy_table".data s1
  let s3 := subMacroScan s2
  let s4 := subBlockScan '{' '%' '%' '}' s3
  let s5 := subBlockScan '{' '#' '#' '}' s4
  let s6 := stripLineComments s5
  let s7 := subBlockScan '/' '*' '*' '/' s6
  String.mk (trimToQueryStart s7)

/-- The least index whose suffix starts with a query keyword
(specification-side formulation of "the first case-insensitive
occurrence of WITH or SELECT"). -/
def firstKwPos (s : List Char) : Option Nat :=
  (List.range s.length).find? (fun i => startsWithQueryKw (s.drop i))

/-! ## The driver (`main`, yaml_reorder.py:158-264)

The file system is a Python-dict-like map from paths to file text.  The
external libraries are oracle parameters: `extractCols` models
`extract_sql_columns` (sqlglot parsing plus alias extraction, not part
of this repository), `parseYamlDoc` models `yaml.safe_load` and
`dumpYaml` models `yaml.dump`. -/

/-- Python `str.replace`: replace every non-overlapping occurrence, left
to right. -/
def pyReplaceGo (old new : List Char) : Nat → List Char → List Char
  | 0, s => s
  | _ + 1, [] => []
  | f + 1, c :: cs =>
      if old.isPrefixOf (c :: cs) then
        new ++ pyReplaceGo old new f ((c :: cs).drop old.length)
      else c :: pyReplaceGo old new f cs

def pyReplace (s old new : String) : String :=
  String.mk (pyReplaceGo old.data new.data s.data.length s.data)

/-- Python `str.endswith`. -/
def strEndsWith (s pat : String) : Bool := List.isSuffixOf pat.data s.data

/-- The sibling-path derivation of `main` (yaml_reorder.py:189-195);
returns `(sql_file, yaml_file)`. -/
def deriveSiblings (input_file : String) : String × String :=
  if strEndsWith input_file ".yml" || strEndsWith input_file ".yaml" then
    (pyReplace (pyReplace input_file ".yml" ".sql") ".yaml" ".sql", input_file)
  else
    (input_file, pyReplace input_file ".sql" ".yml")

abbrev FS := List (String × String)

def fsGet (fs : FS) (p : String) : Option String := dictGet fs p

def fsHas (fs : FS) (p : String) : Bool := dictHasKey fs p

def fsSet (fs : FS) (p v : String) : FS := dictInsert fs p v

/-- Outcome of one driver run: the process exit code, the two output
streams, and the resulting file system. -/
structure RunOut where
  exitCode : Nat
  stdout : List String
  stderr : List String
  fs : FS
  deriving DecidableEq, Repr

/-- Shallow embedding of `main` (yaml_reorder.py:158-264) for one parsed
command line.  `interrupted` models a `KeyboardInterrupt` raised during
the run (yaml_reorder.py:259-261).  The `write_yaml_file` call that the
source performs inside `reorder_yaml_columns` is modelled here, on the
changed branch. -/
def mainRun (extractCols : String → Except String (List String))
    (parseYamlDoc : String → Except String (YDoc α β γ))
    (dumpYaml : YDoc α β γ → String)
    (input_file : String) (interrupted : Bool) (fs : FS) : RunOut :=
  if interrupted then
    ⟨130, [], ["Interrupted by user"], fs⟩
  else
    let sql_file := (deriveSiblings input_file).1
    let yaml_file := (deriveSiblings input_file).2
    if ¬ fsHas fs sql_file then
      ⟨1, [], ["Error: SQL file not found: " ++ sql_file], fs⟩
    else if ¬ fsHas fs yaml_file then
      ⟨0, [], ["Warning: YAML file not found: " ++ yaml_file,
               "Skipping (no schema file to reorder)"], fs⟩
    else
      let sql := (fsGet fs sql_file).getD ""
      match extractCols (clean_sql sql) with
      | Except.error e =>
          ⟨1, [], ["Error: Cannot parse SQL in " ++ sql_file, "Parse error: " ++ e], fs⟩
      | Except.ok sql_columns =>
        if sql_columns.isEmpty then
          ⟨0, [], ["Warning: No columns found in " ++ sql_file], fs⟩
        else
          match parseYamlDoc ((fsGet fs yaml_file).getD "") with
          | Except.error e =>
              ⟨1, [], ["Error: Invalid YAML in " ++ yaml_file ++ ": " ++ e], fs⟩
          | Except.ok config =>
            match reorder_yaml_columns config sql_columns with
            | Except.error e => ⟨1, [], ["Error: " ++ e], fs⟩
            | Except.ok (true, config2) =>
                ⟨1, ["✓ Reordered " ++ toString sql_columns.length ++ " columns in " ++ yaml_file],
                 [], fsSet fs yaml_file (dumpYaml config2)⟩
            | Except.ok (false, _) =>
                ⟨0, ["✓ Nothing to reorder in " ++ yaml_file ++ " (already in correct order)"],
                 [], fs⟩

/-! ## Concrete instances used by the witnesses -/

/-- A document with one model holding the given column list, with `Nat`
payloads and trivial passthrough data. -/
def docOf (cols : List (ColEntry Nat)) : YDoc Nat Unit Unit :=
  ⟨some [⟨some cols, ()⟩], ()⟩

/-- An extraction oracle returning a fixed column list. -/
def oracleCols (l : List String) : String → Except String (List String) :=
  fun _ => Except.ok l

/-- A YAML-parsing oracle returning a fixed document. -/
def yParse (d : YDoc Nat Unit Unit) : String → Except String (YDoc Nat Unit Unit) :=
  fun _ => Except.ok d

/-- A YAML serialisation oracle. -/
def yDump : YDoc Nat Unit Unit → String := fun _ => "dumped"

/-! ## Lemmas about the dict model -/

theorem dictGet_nil (n : String) : dictGet ([] : List (String × α)) n = none := rfl

theorem dictGet_cons (a : String) (b : α) (tl : List (String × α)) (n : String) :
    dictGet ((a, b) :: tl) n = if a = n then some b else dictGet tl n := by
  by_cases h : a = n
  · rw [dictGet, List.find?_cons_of_pos _ (by simpa using h)]
    simp [h]
  · rw [dictGet, List.find?_cons_of_neg _ (by simpa using h), if_neg h]
    rfl

theorem dictGet_dictInsert (d : List (String × α)) (k : String) (v : α) (n : String) :
    dictGet (dictInsert d k v) n = if n = k then some v else dictGet d n := by
  induction d with
  | nil =>
      by_cases h : n = k
      · simp [dictInsert, dictGet_cons, h]
      · have h2 : ¬ k = n := fun hh => h hh.symm
        simp [dictInsert, dictGet_cons, h, h2, dictGet_nil]
  | cons p tl ih =>
      obtain ⟨a, b⟩ := p
      simp only [dictInsert]
      by_cases hak : a = k
      · rw [if_pos hak]
        subst hak
        by_cases hnk : n = a
        · subst hnk
          simp [dictGet_cons]
        · have h2 : ¬ a = n := fun hh => hnk hh.symm
          simp [dictGet_cons, hnk, h2]
      · rw [if_neg hak]
        by_cases han : a = n
        · have hnk : ¬ n = k := fun hh => hak (han.trans hh)
          simp [dictGet_cons, han, hnk]
        · simp [dictGet_cons, han, ih]

theorem dictHasKey_eq_isSome (d : List (String × α)) (k : String) :
    dictHasKey d k = (dictGet d k).isSome := by
  induction d with
  | nil => rfl
  | cons p tl ih =>
      obtain ⟨a, b⟩ := p
      by_cases hak : a = k
      · simp [dictHasKey, List.any_cons, dictGet_cons, hak]
      · simp only [dictHasKey, List.any_cons, dictGet_cons, if_neg hak] at ih ⊢
        simpa [hak, dictHasKey] using ih

theorem dictGet_buildColDict (cols : List (ColEntry α)) (n : String) :
    dictGet (buildColDict cols) n = lastWithName cols n := by
  induction cols using List.reverseRecOn with
  | nil => simp [buildColDict, dictGet, lastWithName]
  | append_singleton cols c ih =>
      have hfold : buildColDict (cols ++ [c]) = dictInsert (buildColDict cols) c.name c := by
        simp [buildColDict, List.foldl_append]
      rw [hfold, dictGet_dictInsert, lastWithName, List.filter_append]
      by_cases hcn : c.name = n
      · simp [hcn, List.getLast?_concat]
      · have h2 : ¬ n = c.name := fun hh => hcn hh.symm
        simp [hcn, h2, ih, lastWithName]

theorem dictHasKey_buildColDict (cols : List (ColEntry α)) (n : String) :
    dictHasKey (buildColDict cols) n = cols.any (fun c => c.name = n) := by
  rw [dictHasKey_eq_isSome, dictGet_buildColDict, lastWithName]
  rcases hF : cols.filter (fun c => c.name = n) with _ | ⟨x, xs⟩
  · have hall : ∀ c ∈ cols, ¬ (c.name = n) := by
      intro c hc hcn
      have hmem : c ∈ cols.filter (fun c => c.name = n) := by
        rw [List.mem_filter]
        exact ⟨hc, by simpa using hcn⟩
      rw [hF] at hmem
      cases hmem
    rw [hF]
    simp only [List.getLast?_nil, Option.isSome_none]
    symm
    rw [List.any_eq_false]
    intro c hc
    simpa using hall c hc
  · have hx : x ∈ cols.filter (fun c => c.name = n) := by
      rw [hF]
      exact List.mem_cons_self x xs
    rw [List.mem_filter] at hx
    have hany : cols.any (fun c => c.name = n) = true := by
      rw [List.any_eq_true]
      exact ⟨x, hx.1, by simpa using hx.2⟩
    rw [hF, hany]
    rw [List.getLast?_isSome]
    simp

/-! ## Lemmas about the reconciler -/

theorem lastWithName_mem {cols : List (ColEntry α)} {n : String} {c : ColEntry α}
    (h : lastWithName cols n = some c) : c ∈ cols ∧ c.name = n := by
  have hm : c ∈ cols.filter (fun c => c.name = n) := by
    rw [lastWithName] at h
    exact List.mem_of_mem_getLast? h
  rw [List.mem_filter] at hm
  exact ⟨hm.1, by simpa using hm.2⟩

theorem reorder_spec {config : YDoc α β γ} {m : YModel α β} {ms : List (YModel α β)}
    {cols : List (ColEntry α)} (sql_columns : List String)
    (hm : config.models = some (m :: ms)) (hc : m.columns = some cols) :
    reorder_yaml_columns config sql_columns =
      (if cols.map (fun c => c.name) =
          sql_columns.filter (fun n => dictHasKey (buildColDict cols) n) then
        Except.ok (false, config)
      else
        Except.ok (true,
          (⟨some ((⟨some ((sql_columns.filter (fun n => dictHasKey (buildColDict cols) n)).filterMap
              (fun n => dictGet (buildColDict cols) n)), m.rest⟩ : YModel α β) :: ms),
            config.rest⟩ : YDoc α β γ))) := by
  unfold reorder_yaml_columns
  rw [hm]
  simp only [hc]

theorem reorder_ok_inv {config d2 : YDoc α β γ} {sql_columns : List String} {b : Bool}
    (h : reorder_yaml_columns config sql_columns = Except.ok (b, d2)) :
    ∃ m ms cols, config.models = some (m :: ms) ∧ m.columns = some cols ∧
      ((b = false ∧ d2 = config ∧
          cols.map (fun c => c.name) =
            sql_columns.filter (fun n => dictHasKey (buildColDict cols) n)) ∨
       (b = true ∧
          cols.map (fun c => c.name) ≠
            sql_columns.filter (fun n => dictHasKey (buildColDict cols) n) ∧
          d2 = (⟨some ((⟨some ((sql_columns.filter (fun n => dictHasKey (buildColDict cols) n)).filterMap
              (fun n => dictGet (buildColDict cols) n)), m.rest⟩ : YModel α β) :: ms),
            config.rest⟩ : YDoc α β γ))) := by
  rcases hM : config.models with _ | (_ | ⟨m, ms⟩)
  · unfold reorder_yaml_columns at h
    rw [hM] at h
    cases h
  · unfold reorder_yaml_columns at h
    rw [hM] at h
    cases h
  · rcases hC : m.columns with _ | cols
    · unfold reorder_yaml_columns at h
      rw [hM] at h
      simp [hC] at h
    · refine ⟨m, ms, cols, rfl, hC, ?_⟩
      rw [reorder_spec sql_columns hM hC] at h
      split_ifs at h with hEq
      · injection h with h2
        injection h2 with hb hd
        exact Or.inl ⟨hb.symm, hd.symm, hEq⟩
      · injection h with h2
        injection h2 with hb hd
        exact Or.inr ⟨hb.symm, hEq, hd.symm⟩

theorem names_of_filterMap (cols : List (ColEntry α)) (l : List String)
    (hl : ∀ n ∈ l, dictHasKey (buildColDict cols) n = true) :
    ((l.filterMap (fun n => dictGet (buildColDict cols) n)).map (fun c => c.name)) = l := by
  induction l with
  | nil => rfl
  | cons n l ih =>
      have hk := hl n (List.mem_cons_self n l)
      rw [dictHasKey_eq_isSome] at hk
      rcases hg : dictGet (buildColDict cols) n with _ | c
      · rw [hg] at hk
        cases hk
      · have hcn : c.name = n :=
          (lastWithName_mem ((dictGet_buildColDict cols n).symm.trans hg)).2
        simp only [List.filterMap_cons, hg, List.map_cons, hcn]
        rw [ih (fun x hx => hl x (List.mem_cons_of_mem _ hx))]

theorem reordered_names (cols : List (ColEntry α)) (sql_columns : List String) :
    ((sql_columns.filter (fun n => dictHasKey (buildColDict cols) n)).filterMap
       (fun n => dictGet (buildColDict cols) n)).map (fun c => c.name) =
    sql_columns.filter (fun n => dictHasKey (buildColDict cols) n) :=
  names_of_filterMap cols _ (fun n hn => (List.mem_filter.mp hn).2)

theorem mem_of_reordered {cols : List (ColEntry α)} {sql_columns : List String} {c : ColEntry α}
    (h : c ∈ (sql_columns.filter (fun n => dictHasKey (buildColDict cols) n)).filterMap
        (fun n => dictGet (buildColDict cols) n)) : c ∈ cols ∧ c.name ∈ sql_columns := by
  rw [List.mem_filterMap] at h
  obtain ⟨n, hn, hg⟩ := h
  have hmem := lastWithName_mem ((dictGet_buildColDict cols n).symm.trans hg)
  rw [List.mem_filter] at hn
  exact ⟨hmem.1, hmem.2 ▸ hn.1⟩

/-! ## Claim theorems -/

/-- C1: for every document whose first model has a columns list and every
SQL-derived name sequence, the reconciler computes `new_order` as the SQL
sequence filtered to names present in the name-to-entry lookup (in SQL
order, silently dropping absent names); if `new_order` equals the current
name order it reports unchanged with no mutation, otherwise it replaces
the first model's columns with the entries fetched from the lookup in
`new_order` order and reports changed; and every document column absent
from the SQL sequence is absent from the result. -/
theorem reorder_computes_filtered_order {α β γ : Type}
    (config : YDoc α β γ) (sql_columns : List String)
    (m : YModel α β) (ms : List (YModel α β)) (cols : List (ColEntry α))
    (hm : config.models = some (m :: ms)) (hc : m.columns = some cols) :
    (sql_columns.filter (fun n => cols.any (fun c => c.name = n)) = cols.map (fun c => c.name) →
        reorder_yaml_columns config sql_columns = Except.ok (false, config)) ∧
    (sql_columns.filter (fun n => cols.any (fun c => c.name = n)) ≠ cols.map (fun c => c.name) →
        reorder_yaml_columns config sql_columns = Except.ok (true,
          (⟨some ((⟨some ((sql_columns.filter (fun n => cols.any (fun c => c.name = n))).filterMap
              (fun n => dictGet (buildColDict cols) n)), m.rest⟩ : YModel α β) :: ms),
            config.rest⟩ : YDoc α β γ))) ∧
    (∀ b d2, reorder_yaml_columns config sql_columns = Except.ok (b, d2) →
        ∀ m2 ms2 cols2, d2.models = some (m2 :: ms2) → m2.columns = some cols2 →
          ∀ c ∈ cols2, c.name ∈ sql_columns) := by
  have hfilt : sql_columns.filter (fun n => cols.any (fun c => c.name = n)) =
      sql_columns.filter (fun n => dictHasKey (buildColDict cols) n) :=
    (List.filter_congr (fun n _ => dictHasKey_buildColDict cols n)).symm
  refine ⟨?_, ?_, ?_⟩
  · intro hEq
    rw [reorder_spec sql_columns hm hc, if_pos (hEq.symm.trans hfilt)]
  · intro hNe
    rw [hfilt, reorder_spec sql_columns hm hc,
      if_neg (fun hcond => hNe (hfilt.trans hcond.symm))]
  · intro b d2 h m2 ms2 cols2 hm2 hc2 c hcmem
    rw [reorder_spec sql_columns hm hc] at h
    split_ifs at h with hcond
    · injection h with h2
      injection h2 with hb hd
      subst hd
      rw [hm] at hm2
      injection hm2 with hm3
      injection hm3 with hmEq hmsEq
      subst hmEq
      rw [hc] at hc2
      injection hc2 with hcEq
      subst hcEq
      have : c.name ∈ cols.map (fun c => c.name) := List.mem_map_of_mem _ hcmem
      rw [hcond] at this
      exact (List.mem_filter.mp this).1
    · injection h with h2
      injection h2 with hb hd
      subst hd
      simp only at hm2
      injection hm2 with hm3
      injection hm3 with hmEq hmsEq
      subst hmEq
      simp only at hc2
      injection hc2 with hcEq
      subst hcEq
      exact (mem_of_reordered hcmem).2

/-- Witness for C1 at a concrete document and SQL sequence. -/
theorem reorder_computes_filtered_order_witness :
    reorder_yaml_columns (docOf [⟨"b", 1⟩, ⟨"a", 2⟩]) ["a", "c", "b"] =
      Except.ok (true, docOf [⟨"a", 2⟩, ⟨"b", 1⟩]) := by
  have h := (reorder_computes_filtered_order (docOf [⟨"b", 1⟩, ⟨"a", 2⟩]) ["a", "c", "b"]
      ⟨some [⟨"b", 1⟩, ⟨"a", 2⟩], ()⟩ [] [⟨"b", 1⟩, ⟨"a", 2⟩] rfl rfl).2.1 (by decide)
  exact h.trans (by rfl)

/-- C3: reconciliation is idempotent — if a run reports changed, a second
run on the resulting document with the same SQL name sequence reports
unchanged and returns the document untouched. -/
theorem reorder_idempotent {α β γ : Type} (config d2 : YDoc α β γ) (sql_columns : List String)
    (h : reorder_yaml_columns config sql_columns = Except.ok (true, d2)) :
    reorder_yaml_columns d2 sql_columns = Except.ok (false, d2) := by
  obtain ⟨m, ms, cols, hm, hc, hcase⟩ := reorder_ok_inv h
  rcases hcase with ⟨hb, _, _⟩ | ⟨_, hNe, hd2⟩
  · cases hb
  · subst hd2
    set newCols := (sql_columns.filter (fun n => dictHasKey (buildColDict cols) n)).filterMap
        (fun n => dictGet (buildColDict cols) n) with hnewdef
    have hnames : newCols.map (fun c => c.name) =
        sql_columns.filter (fun n => dictHasKey (buildColDict cols) n) :=
      reordered_names cols sql_columns
    have hcnd : newCols.map (fun c => c.name) =
        sql_columns.filter (fun n => dictHasKey (buildColDict newCols) n) := by
      rw [hnames]
      apply List.filter_congr
      intro n hn
      rw [dictHasKey_buildColDict, dictHasKey_buildColDict]
      cases hA : cols.any (fun c => c.name = n) with
      | true =>
          have hk : dictHasKey (buildColDict cols) n = true := by
            rw [dictHasKey_buildColDict]
            exact hA
          have hmem : n ∈ sql_columns.filter (fun n => dictHasKey (buildColDict cols) n) :=
            List.mem_filter.mpr ⟨hn, hk⟩
          rw [← hnames, List.mem_map] at hmem
          obtain ⟨c, hcmem, hcn⟩ := hmem
          symm
          rw [List.any_eq_true]
          exact ⟨c, hcmem, by simpa using hcn⟩
      | false =>
          symm
          rw [List.any_eq_false]
          intro c hcmem hcontra
          have hmm := mem_of_reordered (hnewdef ▸ hcmem)
          have hT : cols.any (fun c => c.name = n) = true := by
            rw [List.any_eq_true]
            exact ⟨c, hmm.1, hcontra⟩
          rw [hA] at hT
          cases hT
    rw [@reorder_spec α β γ
        (⟨some ((⟨some newCols, m.rest⟩ : YModel α β) :: ms), config.rest⟩)
        (⟨some newCols, m.rest⟩) ms newCols sql_columns rfl rfl, if_pos hcnd]

/-- Witness for C3: a run that changes the order, then a second run that
reports unchanged with identical content. -/
theorem reorder_idempotent_witness :
    reorder_yaml_columns (docOf [⟨"b", 1⟩, ⟨"a", 2⟩]) ["a", "b"] =
      Except.ok (true, docOf [⟨"a", 2⟩, ⟨"b", 1⟩]) ∧
    reorder_yaml_columns (docOf [⟨"a", 2⟩, ⟨"b", 1⟩]) ["a", "b"] =
      Except.ok (false, docOf [⟨"a", 2⟩, ⟨"b", 1⟩]) :=
  ⟨rfl, reorder_idempotent (docOf [⟨"b", 1⟩, ⟨"a", 2⟩]) (docOf [⟨"a", 2⟩, ⟨"b", 1⟩])
    ["a", "b"] rfl⟩

/-- C4: reconciliation is a pure reordering — every retained column entry
is an entry of the original list (all its keys unchanged), and everything
other than the first model's columns sequence (the document's other keys,
the other models, the first model's other keys) is unchanged. -/
theorem reorder_frame_preservation {α β γ : Type} (config d2 : YDoc α β γ)
    (sql_columns : List String) (b : Bool)
    (h : reorder_yaml_columns config sql_columns = Except.ok (b, d2)) :
    d2.rest = config.rest ∧
    ∃ m ms cols cols2,
      config.models = some (m :: ms) ∧ m.columns = some cols ∧
      d2.models = some ((⟨some cols2, m.rest⟩ : YModel α β) :: ms) ∧
      ∀ c ∈ cols2, c ∈ cols := by
  obtain ⟨m, ms, cols, hm, hc, hcase⟩ := reorder_ok_inv h
  rcases hcase with ⟨hb, hd2, hEq⟩ | ⟨hb, hNe, hd2⟩
  · subst hd2
    refine ⟨rfl, m, ms, cols, cols, hm, hc, ?_, fun c hc2 => hc2⟩
    rw [hm]
    have hme : m = (⟨some cols, m.rest⟩ : YModel α β) := by
      cases m with
      | mk mc mr => rw [show mc = some cols from hc]
    rw [← hme]
  · subst hd2
    exact ⟨rfl, m, ms, cols, _, hm, hc, rfl, fun c hc2 => (mem_of_reordered hc2).1⟩

/-- Witness for C4 at a concrete changed run. -/
theorem reorder_frame_preservation_witness :
    (docOf [⟨"a", 2⟩, ⟨"b", 1⟩]).rest = (docOf [⟨"b", 1⟩, ⟨"a", 2⟩]).rest ∧
    ∃ m ms cols cols2,
      (docOf [⟨"b", 1⟩, ⟨"a", 2⟩]).models = some (m :: ms) ∧ m.columns = some cols ∧
      (docOf [⟨"a", 2⟩, ⟨"b", 1⟩]).models =
        some ((⟨some cols2, m.rest⟩ : YModel Nat Unit) :: ms) ∧
      ∀ c ∈ cols2, c ∈ cols :=
  reorder_frame_preservation (docOf [⟨"b", 1⟩, ⟨"a", 2⟩]) (docOf [⟨"a", 2⟩, ⟨"b", 1⟩])
    ["a", "b"] true rfl

/-- C5: the reconciler fails with the structural `ValueError` exactly when
the document has no `models` entry, an empty `models` sequence, or a first
model without a `columns` entry; and in the driver such an error leaves
the file system unchanged (exit code 1, the error on the error stream). -/
theorem reorder_structural_error_iff {α β γ : Type} (config : YDoc α β γ)
    (sql_columns : List String)
    (extractCols : String → Except String (List String))
    (parseYamlDoc : String → Except String (YDoc α β γ))
    (dumpYaml : YDoc α β γ → String) (input_file : String) (fs : FS) (e : String) :
    ((∃ err, reorder_yaml_columns config sql_columns = Except.error err) ↔
      (config.models = none ∨ config.models = some [] ∨
        ∃ m ms, config.models = some (m :: ms) ∧ m.columns = none)) ∧
    (reorder_yaml_columns config sql_columns = Except.error e →
      fsHas fs (deriveSiblings input_file).1 = true →
      fsHas fs (deriveSiblings input_file).2 = true →
      extractCols (clean_sql ((fsGet fs (deriveSiblings input_file).1).getD "")) =
        Except.ok sql_columns →
      sql_columns ≠ [] →
      parseYamlDoc ((fsGet fs (deriveSiblings input_file).2).getD "") = Except.ok config →
      mainRun extractCols parseYamlDoc dumpYaml input_file false fs =
        ⟨1, [], ["Error: " ++ e], fs⟩) := by
  constructor
  · constructor
    · rintro ⟨err, herr⟩
      rcases hM : config.models with _ | (_ | ⟨m, ms⟩)
      · exact Or.inl rfl
      · exact Or.inr (Or.inl rfl)
      · rcases hC : m.columns with _ | cols
        · exact Or.inr (Or.inr ⟨m, ms, rfl, hC⟩)
        · rw [reorder_spec sql_columns hM hC] at herr
          split_ifs at herr
    · rintro (hM | hM | ⟨m, ms, hM, hC⟩)
      · exact ⟨"No models found", by unfold reorder_yaml_columns; rw [hM]⟩
      · exact ⟨"No models found", by unfold reorder_yaml_columns; rw [hM]⟩
      · exact ⟨"No columns found in model", by
          unfold reorder_yaml_columns
          rw [hM]
          simp only [hC]⟩
  · intro h7 hs hy hex hne hp
    have hie : sql_columns.isEmpty = false := by
      cases sql_columns with
      | nil => cases hne rfl
      | cons a l => rfl
    simp [mainRun, hs, hy, hex, hie, hp, h7]

/-- Witness for C5: a document without a `models` entry makes the
reconciler fail and the driver leave the file system unchanged. -/
theorem reorder_structural_error_iff_witness :
    mainRun (oracleCols ["a"]) (yParse ⟨none, ()⟩) yDump "m.sql" false
        [("m.sql", "select a"), ("m.yml", "x")] =
      ⟨1, [], ["Error: No models found"],
        [("m.sql", "select a"), ("m.yml", "x")]⟩ :=
  (reorder_structural_error_iff (⟨none, ()⟩ : YDoc Nat Unit Unit) ["a"]
      (oracleCols ["a"]) (yParse ⟨none, ()⟩) yDump "m.sql"
      [("m.sql", "select a"), ("m.yml", "x")] "No models found").2
    rfl rfl rfl rfl (List.cons_ne_nil _ _) rfl

/-- Counterexample for C9 as stated: a document with distinct names
`a, b` reconciled against the duplicate-carrying SQL sequence
`[b, b, a]` yields a column list whose names are not pairwise distinct. -/
theorem reorder_duplicates_break_uniqueness :
    reorder_yaml_columns (docOf [⟨"a", 0⟩, ⟨"b", 1⟩]) ["b", "b", "a"] =
      Except.ok (true, docOf [⟨"b", 1⟩, ⟨"b", 1⟩, ⟨"a", 0⟩]) ∧
    (([⟨"a", 0⟩, ⟨"b", 1⟩] : List (ColEntry Nat)).map (fun c => c.name)).Nodup ∧
    ¬ (([⟨"b", 1⟩, ⟨"b", 1⟩, ⟨"a", 0⟩] : List (ColEntry Nat)).map
        (fun c => c.name)).Nodup :=
  ⟨rfl, by decide, by decide⟩

/-- C9 as amended: when additionally the SQL-derived name sequence is
itself duplicate-free, reconciliation preserves pairwise-distinct names
in the column list. -/
theorem reorder_nodup_preserved {α β γ : Type} (config : YDoc α β γ)
    (sql_columns : List String) (m : YModel α β) (ms : List (YModel α β))
    (cols : List (ColEntry α))
    (hm : config.models = some (m :: ms)) (hc : m.columns = some cols)
    (hnd : (cols.map (fun c => c.name)).Nodup) (hs : sql_columns.Nodup) :
    ∀ b d2, reorder_yaml_columns config sql_columns = Except.ok (b, d2) →
      ∀ m2 ms2 cols2, d2.models = some (m2 :: ms2) → m2.columns = some cols2 →
        (cols2.map (fun c => c.name)).Nodup := by
  intro b d2 h m2 ms2 cols2 hm2 hc2
  rw [reorder_spec sql_columns hm hc] at h
  split_ifs at h with hcond
  · injection h with h2
    injection h2 with hb hd
    subst hd
    rw [hm] at hm2
    injection hm2 with hm3
    injection hm3 with hmEq hmsEq
    subst hmEq
    rw [hc] at hc2
    injection hc2 with hcEq
    subst hcEq
    exact hnd
  · injection h with h2
    injection h2 with hb hd
    subst hd
    simp only at hm2
    injection hm2 with hm3
    injection hm3 with hmEq hmsEq
    subst hmEq
    simp only at hc2
    injection hc2 with hcEq
    subst hcEq
    rw [reordered_names]
    exact hs.filter _

/-- Witness for the amended C9. -/
theorem reorder_nodup_preserved_witness :
    (([⟨"a", 2⟩, ⟨"b", 1⟩] : List (ColEntry Nat)).map (fun c => c.name)).Nodup :=
  reorder_nodup_preserved (docOf [⟨"b", 1⟩, ⟨"a", 2⟩]) ["a", "b"]
    ⟨some [⟨"b", 1⟩, ⟨"a", 2⟩], ()⟩ [] [⟨"b", 1⟩, ⟨"a", 2⟩] rfl rfl
    (by decide) (by decide)
    true (docOf [⟨"a", 2⟩, ⟨"b", 1⟩]) rfl ⟨some [⟨"a", 2⟩, ⟨"b", 1⟩], ()⟩ []
    [⟨"a", 2⟩, ⟨"b", 1⟩] rfl rfl

/-- C10: the name-to-entry lookup built from the current column list maps
each name to the last entry carrying it, and a reordered list therefore
holds, for each retained name, that last entry in full. -/
theorem lookup_last_occurrence_wins {α β γ : Type} (config : YDoc α β γ)
    (sql_columns : List String) (m : YModel α β) (ms : List (YModel α β))
    (cols : List (ColEntry α))
    (hm : config.models = some (m :: ms)) (hc : m.columns = some cols) :
    (∀ n, dictGet (buildColDict cols) n = (cols.filter (fun c => c.name = n)).getLast?) ∧
    (∀ d2, reorder_yaml_columns config sql_columns = Except.ok (true, d2) →
      ∀ m2 ms2 cols2, d2.models = some (m2 :: ms2) → m2.columns = some cols2 →
        ∀ c ∈ cols2, (cols.filter (fun x => x.name = c.name)).getLast? = some c) := by
  refine ⟨fun n => dictGet_buildColDict cols n, ?_⟩
  intro d2 h m2 ms2 cols2 hm2 hc2 c hcmem
  rw [reorder_spec sql_columns hm hc] at h
  split_ifs at h with hcond
  · injection h with h2
    injection h2 with hb hd
    cases hb
  · injection h with h2
    injection h2 with hb hd
    subst hd
    simp only at hm2
    injection hm2 with hm3
    injection hm3 with hmEq hmsEq
    subst hmEq
    simp only at hc2
    injection hc2 with hcEq
    subst hcEq
    rw [List.mem_filterMap] at hcmem
    obtain ⟨n, hn, hg⟩ := hcmem
    have hlast := (dictGet_buildColDict cols n).symm.trans hg
    have hname := (lastWithName_mem hlast).2
    rw [lastWithName] at hlast
    rw [hname]
    exact hlast

/-- Witness for C10 on a column list with a duplicated name. -/
theorem lookup_last_occurrence_wins_witness :
    dictGet (buildColDict [⟨"a", 1⟩, ⟨"b", 2⟩, ⟨"a", 3⟩]) "a" =
      some (⟨"a", 3⟩ : ColEntry Nat) ∧
    (([⟨"a", 1⟩, ⟨"b", 2⟩, ⟨"a", 3⟩] : List (ColEntry Nat)).filter
        (fun x => x.name = "a")).getLast? = some (⟨"a", 3⟩ : ColEntry Nat) := by
  have h := (lookup_last_occurrence_wins (docOf [⟨"a", 1⟩, ⟨"b", 2⟩, ⟨"a", 3⟩]) ["b", "a"]
      ⟨some [⟨"a", 1⟩, ⟨"b", 2⟩, ⟨"a", 3⟩], ()⟩ [] [⟨"a", 1⟩, ⟨"b", 2⟩, ⟨"a", 3⟩]
      rfl rfl).1 "a"
  exact ⟨h.trans (by rfl), by rfl⟩

/-- C2 (code bug): the preamble trim is specified to remove exactly the
leading text before the first case-insensitive WITH/SELECT occurrence,
but on text that already starts with a keyword the `re.sub` empty-match
retry (Python 3.7 and later) deletes everything up to the second
occurrence: an ordinary CTE query is corrupted. -/
theorem clean_sql_empty_match_retry :
    clean_sql "with base as (select 1 as a) select a from base" =
      "select 1 as a) select a from base" ∧
    firstKwPos "with base as (select 1 as a) select a from base".data = some 0 := by
  exact ⟨rfl, rfl⟩

/-- Counterexample for C6 as stated: with the derived SQL sibling path
missing, the driver does not skip silently — it writes to the error
stream and exits with code 1 (the run is treated as failed). -/
theorem driver_missing_sql_not_silent :
    (mainRun (oracleCols ["a"]) (yParse (docOf [])) yDump "m.sql" false []).exitCode = 1 ∧
    (mainRun (oracleCols ["a"]) (yParse (docOf [])) yDump "m.sql" false []).stderr =
      ["Error: SQL file not found: m.sql"] ∧
    (mainRun (oracleCols ["a"]) (yParse (docOf [])) yDump "m.sql" false []).fs = [] :=
  ⟨rfl, rfl, rfl⟩

/-- C6 as amended: a missing SQL sibling is an error (stderr line, exit
code 1, no write); zero extracted columns and a missing YAML sibling are
skips that do print a warning to stderr but exit 0 with no write. -/
theorem driver_skip_behavior {α β γ : Type}
    (extractCols : String → Except String (List String))
    (parseYamlDoc : String → Except String (YDoc α β γ))
    (dumpYaml : YDoc α β γ → String) (input_file : String) (fs : FS) :
    (fsHas fs (deriveSiblings input_file).1 = false →
      mainRun extractCols parseYamlDoc dumpYaml input_file false fs =
        ⟨1, [], ["Error: SQL file not found: " ++ (deriveSiblings input_file).1], fs⟩) ∧
    (fsHas fs (deriveSiblings input_file).1 = true →
      fsHas fs (deriveSiblings input_file).2 = true →
      extractCols (clean_sql ((fsGet fs (deriveSiblings input_file).1).getD "")) =
        Except.ok [] →
      mainRun extractCols parseYamlDoc dumpYaml input_file false fs =
        ⟨0, [], ["Warning: No columns found in " ++ (deriveSiblings input_file).1], fs⟩) ∧
    (fsHas fs (deriveSiblings input_file).1 = true →
      fsHas fs (deriveSiblings input_file).2 = false →
      mainRun extractCols parseYamlDoc dumpYaml input_file false fs =
        ⟨0, [], ["Warning: YAML file not found: " ++ (deriveSiblings input_file).2,
                 "Skipping (no schema file to reorder)"], fs⟩) := by
  refine ⟨?_, ?_, ?_⟩
  · intro hs
    simp [mainRun, hs]
  · intro hs hy hex
    simp [mainRun, hs, hy, hex]
  · intro hs hy
    simp [mainRun, hs, hy]

/-- Witness for the amended C6: the zero-column and the missing-YAML
skip, at concrete inputs. -/
theorem driver_skip_behavior_witness :
    mainRun (oracleCols []) (yParse (docOf [])) yDump "w.sql" false
        [("w.sql", "select a"), ("w.yml", "y")] =
      ⟨0, [], ["Warning: No columns found in w.sql"],
        [("w.sql", "select a"), ("w.yml", "y")]⟩ :=
  (driver_skip_behavior (oracleCols []) (yParse (docOf [])) yDump "w.sql"
    [("w.sql", "select a"), ("w.yml", "y")]).2.1 rfl rfl rfl

/-- Counterexample for C7 as stated: a run that modifies nothing (the SQL
sibling is missing) still exits with code 1, so exit code 1 does not hold
exactly when a document was modified, and a no-modification run does not
always exit 0. -/
theorem driver_exit_one_without_modification :
    (mainRun (oracleCols ["a"]) (yParse (docOf [])) yDump "n.sql" false []).exitCode = 1 ∧
    (mainRun (oracleCols ["a"]) (yParse (docOf [])) yDump "n.sql" false []).fs = [] :=
  ⟨rfl, rfl⟩

/-- C7 as amended: the interrupted run exits with code 130; otherwise
the exit code is always 0 or 1, determined branch by branch: every
error-free completion without a modification — missing YAML sibling,
zero extracted columns, document already in order — exits 0, the
modified run exits 1, and every error path — missing SQL file, SQL
parse error, YAML parse error, reconciler error — also exits 1, the
same code as the modified case; moreover an exit code of 0 implies no
file was written and any run that changed the file system exited 1. -/
theorem driver_exit_code_policy {α β γ : Type}
    (extractCols : String → Except String (List String))
    (parseYamlDoc : String → Except String (YDoc α β γ))
    (dumpYaml : YDoc α β γ → String) (input_file : String) (interrupted : Bool)
    (fs : FS) (r : RunOut)
    (hr : r = mainRun extractCols parseYamlDoc dumpYaml input_file interrupted fs) :
    (interrupted = true → r.exitCode = 130) ∧
    (interrupted = false →
      (r.exitCode = 0 ∨ r.exitCode = 1) ∧
      (r.exitCode = 0 → r.fs = fs) ∧
      (r.fs ≠ fs → r.exitCode = 1) ∧
      (fsHas fs (deriveSiblings input_file).1 = false → r.exitCode = 1 ∧ r.fs = fs) ∧
      (fsHas fs (deriveSiblings input_file).1 = true →
        (fsHas fs (deriveSiblings input_file).2 = false → r.exitCode = 0 ∧ r.fs = fs) ∧
        (fsHas fs (deriveSiblings input_file).2 = true →
          (∀ e, extractCols (clean_sql ((fsGet fs (deriveSiblings input_file).1).getD "")) =
              Except.error e → r.exitCode = 1 ∧ r.fs = fs) ∧
          (extractCols (clean_sql ((fsGet fs (deriveSiblings input_file).1).getD "")) =
              Except.ok [] → r.exitCode = 0 ∧ r.fs = fs) ∧
          (∀ sql_columns,
            extractCols (clean_sql ((fsGet fs (deriveSiblings input_file).1).getD "")) =
              Except.ok sql_columns →
            sql_columns ≠ [] →
            (∀ e, parseYamlDoc ((fsGet fs (deriveSiblings input_file).2).getD "") =
                Except.error e → r.exitCode = 1 ∧ r.fs = fs) ∧
            (∀ config,
              parseYamlDoc ((fsGet fs (deriveSiblings input_file).2).getD "") =
                Except.ok config →
              (∀ e, reorder_yaml_columns config sql_columns = Except.error e →
                  r.exitCode = 1 ∧ r.fs = fs) ∧
              (∀ d2, reorder_yaml_columns config sql_columns = Except.ok (true, d2) →
                  r.exitCode = 1 ∧
                  r.fs = fsSet fs (deriveSiblings input_file).2 (dumpYaml d2)) ∧
              (∀ d2, reorder_yaml_columns config sql_columns = Except.ok (false, d2) →
                  r.exitCode = 0 ∧ r.fs = fs)))))) := by
  subst hr
  refine ⟨fun hi => by subst hi; rfl, fun hi => ?_⟩
  subst hi
  refine ⟨?_, ?_, ?_, ?_, ?_⟩
  · simp only [mainRun, Bool.false_eq_true, if_false]
    split
    · simp
    split
    · simp
    split
    · simp
    split
    · simp
    split
    · simp
    split <;> simp
  · simp only [mainRun, Bool.false_eq_true, if_false]
    split
    · simp
    split
    · simp
    split
    · simp
    split
    · simp
    split
    · simp
    split <;> simp
  · simp only [mainRun, Bool.false_eq_true, if_false]
    split
    · simp
    split
    · simp
    split
    · simp
    split
    · simp
    split
    · simp
    split <;> simp
  · intro hs
    simp [mainRun, hs]
  · intro hs
    constructor
    · intro hy
      simp [mainRun, hs, hy]
    · intro hy
      refine ⟨?_, ?_, ?_⟩
      · intro e hex
        simp [mainRun, hs, hy, hex]
      · intro hex
        simp [mainRun, hs, hy, hex]
      · intro sql_columns hex hne
        have hie : sql_columns.isEmpty = false := by
          cases sql_columns with
          | nil => cases hne rfl
          | cons a l => rfl
        refine ⟨?_, ?_⟩
        · intro e hp
          simp [mainRun, hs, hy, hex, hie, hp]
        · intro config hp
          refine ⟨?_, ?_, ?_⟩
          · intro e hre
            simp [mainRun, hs, hy, hex, hie, hp, hre]
          · intro d2 hre
            simp [mainRun, hs, hy, hex, hie, hp, hre]
          · intro d2 hre
            simp [mainRun, hs, hy, hex, hie, hp, hre]

/-- Witness for the amended C7: the interrupted run exits 130, and an
error-free run on an already-ordered document exits 0 leaving the file
system unchanged, at concrete inputs. -/
theorem driver_exit_code_policy_witness :
    (mainRun (oracleCols ["a"]) (yParse (docOf [⟨"a", 1⟩])) yDump "k.sql" true
        []).exitCode = 130 ∧
    (mainRun (oracleCols ["a"]) (yParse (docOf [⟨"a", 1⟩])) yDump "w.sql" false
        [("w.sql", "select a"), ("w.yml", "y")]).exitCode = 0 ∧
    (mainRun (oracleCols ["a"]) (yParse (docOf [⟨"a", 1⟩])) yDump "w.sql" false
        [("w.sql", "select a"), ("w.yml", "y")]).fs =
      [("w.sql", "select a"), ("w.yml", "y")] := by
  have h1 := (driver_exit_code_policy (oracleCols ["a"]) (yParse (docOf [⟨"a", 1⟩]))
      yDump "k.sql" true []
      (mainRun (oracleCols ["a"]) (yParse (docOf [⟨"a", 1⟩])) yDump "k.sql" true [])
      rfl).1 rfl
  have h2 := (driver_exit_code_policy (oracleCols ["a"]) (yParse (docOf [⟨"a", 1⟩]))
      yDump "w.sql" false [("w.sql", "select a"), ("w.yml", "y")]
      (mainRun (oracleCols ["a"]) (yParse (docOf [⟨"a", 1⟩])) yDump "w.sql" false
        [("w.sql", "select a"), ("w.yml", "y")])
      rfl).2 rfl
  have h3 := (((h2.2.2.2.2 rfl).2 rfl).2.2 ["a"] rfl
      (List.cons_ne_nil _ _)).2 (docOf [⟨"a", 1⟩]) rfl
  have h4 := h3.2.2 (docOf [⟨"a", 1⟩]) rfl
  exact ⟨h1, h4.1, h4.2⟩

/-- Behaviour of pyReplaceGo on the empty text. -/
theorem pyReplaceGo_nil (old new : List Char) (f : Nat) :
    pyReplaceGo old new f [] = [] := by
  cases f <;> rfl

/-- When the pattern occurs in the text only as its final suffix, Python
`str.replace` swaps exactly that suffix. -/
theorem pyReplaceGo_single_end (old new : List Char) (stem : List Char) :
    ∀ f : Nat, stem.length + old.length ≤ f → old ≠ [] →
    (∀ i, i < stem.length → ¬ (old.isPrefixOf ((stem ++ old).drop i) = true)) →
    pyReplaceGo old new f (stem ++ old) = stem ++ new := by
  induction stem with
  | nil =>
      intro f hf hold hno
      cases old with
      | nil => cases hold rfl
      | cons a l =>
          cases f with
          | zero => simp at hf
          | succ f2 =>
              show pyReplaceGo (a :: l) new (f2 + 1) ([] ++ (a :: l)) = [] ++ new
              rw [List.nil_append, List.nil_append]
              have hpf : (a :: l).isPrefixOf (a :: l) = true :=
                List.isPrefixOf_iff_prefix.mpr (List.prefix_refl _)
              simp only [pyReplaceGo, hpf, if_true]
              rw [List.drop_length, pyReplaceGo_nil, List.append_nil]
  | cons c st ih =>
      intro f hf hold hno
      cases f with
      | zero => simp at hf
      | succ f2 =>
          have h0 := hno 0 (by simp)
          have hpf : old.isPrefixOf (c :: (st ++ old)) = false := by
            cases hh : old.isPrefixOf (c :: (st ++ old))
            · rfl
            · exact absurd (by simpa using hh) (by simpa using h0)
          show pyReplaceGo old new (f2 + 1) (c :: (st ++ old)) = c :: (st ++ new)
          simp only [pyReplaceGo, hpf, Bool.false_eq_true, if_false]
          rw [ih f2 (by simp at hf ⊢; omega) hold
            (fun i hi => by simpa using hno (i + 1) (by simpa using hi))]

/-- Counterexample for C8 as stated: for a SQL input whose directory part
also carries the `.sql` substring, the derivation rewrites that part too,
so the substitution is not confined to the extension at the end of the
path. -/
theorem sibling_derivation_alters_middle :
    deriveSiblings "a.sql/b.sql" = ("a.sql/b.sql", "a.yml/b.yml") ∧
    ("a.yml/b.yml" : String) ≠ "a.sql/b.yml" :=
  ⟨rfl, by decide⟩

/-- C8 as amended: the driver derives siblings by Python `str.replace`,
substituting every occurrence of the extension substring (and for a SQL
input only the `.yml` variant is derived); when the extension occurs in
the path only as its final suffix this is exactly a suffix swap. -/
theorem sibling_derivation_by_replace (input_file : String) :
    ((strEndsWith input_file ".yml" || strEndsWith input_file ".yaml") = true →
      deriveSiblings input_file =
        (pyReplace (pyReplace input_file ".yml" ".sql") ".yaml" ".sql", input_file)) ∧
    ((strEndsWith input_file ".yml" || strEndsWith input_file ".yaml") = false →
      deriveSiblings input_file = (input_file, pyReplace input_file ".sql" ".yml")) ∧
    (∀ stem : String, input_file = stem ++ ".sql" →
      (∀ i, i < stem.data.length →
        ¬ (".sql".data.isPrefixOf ((stem.data ++ ".sql".data).drop i) = true)) →
      (strEndsWith input_file ".yml" || strEndsWith input_file ".yaml") = false →
      deriveSiblings input_file = (input_file, stem ++ ".yml")) := by
  refine ⟨?_, ?_, ?_⟩
  · intro h
    simp only [deriveSiblings, h, if_true]
  · intro h
    simp only [deriveSiblings, h, Bool.false_eq_true, if_false]
  · intro stem hin hno hend
    rw [deriveSiblings, hend]
    simp only [Bool.false_eq_true, if_false]
    refine congrArg _ ?_
    subst hin
    have hdata : (stem ++ ".sql").data = stem.data ++ ".sql".data := String.data_append ..
    rw [pyReplace, hdata]
    rw [pyReplaceGo_single_end ".sql".data ".yml".data stem.data
      (stem.data ++ ".sql".data).length (by simp) (by decide) hno]
    apply String.ext
    rw [String.data_append]

/-- Witness for the amended C8 at a well-behaved path. -/
theorem sibling_derivation_by_replace_witness :
    deriveSiblings ("model" ++ ".sql") = ("model" ++ ".sql", "model" ++ ".yml") :=
  (sibling_derivation_by_replace ("model" ++ ".sql")).2.2 "model" rfl
    (by decide) (by decide)

end YamlReorder
